import Mathlib

/-!
# git-pr (`cmd/git-pr/main.go`): the share workflow

A shallow embedding of `main.go`.  The program is a straight-line script that
shells out to `git`; the embedding makes the outside world explicit:

* a `World` holds `os.Args` and two oracles that answer what a child process
  would have done, given the history of child processes started so far;
* a `Proc` is the observable state of the running process: the child
  processes it has started (in order) and the lines it printed itself with
  `fmt.Println`;
* a computation in `Go α` either returns a value or ends the process through
  `os.Exit`.

Texts (Go `string`) are modelled as Lean `String`, that is as sequences of
Unicode code points (well-formed UTF-8, on which splitting at the byte 0x0A and
trimming decoded runes agree with splitting and trimming characters); the Go
`int` counter of `changes` is a `Nat` (it is bounded by the length of the text,
so it cannot overflow).  Only what the program prints itself is recorded as
standard output; what a child process writes is outside the model.
-/

namespace GitPr

/-! ## The two functions of package `strings` used by the program -/

namespace unicode

/-- Go `unicode.IsSpace`: the Unicode White_Space property.  In Latin-1 these
are tab, newline, vertical tab, form feed, carriage return, space, U+0085 and
U+00A0; beyond it U+1680, U+2000..U+200A, U+2028, U+2029, U+202F, U+205F and
U+3000. -/
def IsSpace (r : Char) : Bool :=
  let n := r.toNat
  (9 ≤ n && n ≤ 13) || n == 32 || n == 133 || n == 160 || n == 5760 ||
    (8192 ≤ n && n ≤ 8202) || n == 8232 || n == 8233 || n == 8239 ||
    n == 8287 || n == 12288

end unicode

namespace strings

/-- The pieces of a text between the occurrences of the separator character:
one more piece than there are separators, the empty text giving one empty
piece. -/
def splitChars (sep : Char) : List Char → List (List Char)
  | [] => [[]]
  | c :: cs =>
    if c = sep then [] :: splitChars sep cs
    else
      match splitChars sep cs with
      | [] => [[c]]
      | piece :: pieces => (c :: piece) :: pieces

/-- Go `strings.Split(s, sep)` for a separator of one character (the program
only calls it with the separator "\n"). -/
def Split (s : String) (sep : Char) : List String :=
  (splitChars sep s.data).map String.mk

/-- Leading and trailing white space removed from a list of characters. -/
def trimChars (cs : List Char) : List Char :=
  ((cs.dropWhile unicode.IsSpace).reverse.dropWhile unicode.IsSpace).reverse

/-- Go `strings.TrimSpace(s)`: `s` with all leading and trailing white space
removed, as defined by Unicode. -/
def TrimSpace (s : String) : String :=
  String.mk (trimChars s.data)

end strings

/-! ## The process and its environment -/

/-- The error value of a child process, as far as the program looks at it:
`exit` tests whether it is an `*exec.ExitError` and, if so, prints its `Stderr`
field (a byte slice). -/
inductive ExecError where
  | exitError (Stderr : List Nat)
  | other
  deriving DecidableEq

/-- One child process started by the program. `output` is
`exec.Command(program, args...).Output()` (standard output captured: the two
read-only queries), `run` is the function `run` of the program (standard
output and error passed through: the mutating commands). -/
inductive Call where
  | output (program : String) (args : List String)
  | run (program : String) (args : List String)
  deriving DecidableEq

/-- The observable state of the process: the child processes started so far, in
order, and the lines the program itself printed with `fmt.Println`. -/
structure Proc where
  calls : List Call
  stdout : List String
  deriving DecidableEq

/-- The environment of one invocation. `args` is `os.Args` (the program name
first). `output` answers a captured query with the captured text and the error
(`none` is Go `nil`); `run` answers a passed-through command with its error.
Both answers may depend on every child process started before. -/
structure World where
  args : List String
  output : List Call → String → List String → String × Option ExecError
  run : List Call → String → List String → Option ExecError

/-- Result of a computation: it returned a value, or it ended the process
through `os.Exit` with the given status. -/
inductive Res (α : Type) where
  | ret (a : α) (p : Proc)
  | exit (code : Nat) (p : Proc)

/-- A computation of the program, over the process state. -/
def Go (α : Type) : Type := Proc → Res α

instance : Monad Go where
  pure a := fun p => Res.ret a p
  bind m f := fun p =>
    match m p with
    | Res.ret a q => f a q
    | Res.exit code q => Res.exit code q

namespace os

/-- Go `os.Exit(code)`: the process ends at once with the given status. -/
def Exit {α : Type} (code : Nat) : Go α :=
  fun p => Res.exit code p

end os

namespace fmt

/-- How `fmt.Println` renders a byte slice: the decimal values between square
brackets, separated by blanks. -/
def byteSlice (b : List Nat) : String :=
  "[" ++ " ".intercalate (b.map toString) ++ "]"

/-- Go `fmt.Println(line)`: one line on standard output. -/
def Println (line : String) : Go Unit :=
  fun p => Res.ret () { p with stdout := p.stdout ++ [line] }

end fmt

namespace exec

/-- Go `exec.Command(program, args...).Output()`: starts the child process and
returns its captured standard output and its error. -/
def Output (w : World) (program : String) (args : List String) :
    Go (String × Option ExecError) :=
  fun p => Res.ret (w.output p.calls program args)
    { p with calls := p.calls ++ [Call.output program args] }

end exec

/-! ## The program -/

/-- The function `exit`: handles the common error exit case. -/
def exit {α : Type} (err : ExecError) : Go α := do
  match err with
  | ExecError.exitError Stderr => fmt.Println (fmt.byteSlice Stderr)
  | ExecError.other => pure ()
  os.Exit 1

/-- The function `run`: runs the given command with stdout and stderr mapped to
this process, and returns its error. -/
def run (w : World) (program : String) (args : List String) : Go (Option ExecError) :=
  fun p => Res.ret (w.run p.calls program args)
    { p with calls := p.calls ++ [Call.run program args] }

/-- The function `head`: the current head for the repo. -/
def head (w : World) : Go String := do
  let (headRef, headErr) ← exec.Output w "git" ["rev-parse", "--abbrev-ref", "HEAD"]
  if let some err := headErr then
    exit err
  return strings.TrimSpace headRef

/-- The function `status`: the current status of the repo. -/
def status (w : World) : Go String := do
  let (statusOut, statusErr) ← exec.Output w "git" ["status", "-s"]
  if let some err := statusErr then
    exit err
  return statusOut

/-- The loop of `changes` over the text returned by `status`: split at
newlines, trim each line, count the lines that are not empty afterwards. -/
def changesCount (statusOut : String) : Nat :=
  (strings.Split statusOut '\n').foldl
    (fun count line => if strings.TrimSpace line != "" then count + 1 else count) 0

/-- The function `changes`: the number of lines in the status output. -/
def changes (w : World) : Go Nat := do
  let statusOut ← status w
  return changesCount statusOut

/-- The function `main`. -/
def main (w : World) : Go Unit := do
  if w.args.length < 3 then
    fmt.Println "Usage: git share [name] [rev]"
    os.Exit 1
  let name := w.args.getD 1 ""
  let rev := w.args.getD 2 ""
  let headRev ← head w
  let changeCount ← changes w
  if changeCount > 0 then
    fmt.Println "Cannot continue: pending changes"
    os.Exit 1
  -- create the new branch
  let branchErr ← run w "git" ["branch", name, "origin/master", "--no-track"]
  if branchErr ≠ none then
    os.Exit 1
  -- check out the new branch
  let checkoutErr ← run w "git" ["checkout", "-q", name]
  if checkoutErr ≠ none then
    os.Exit 1
  -- cherry pick
  let cherrypickErr ← run w "git" ["cherry-pick", rev]
  if cherrypickErr ≠ none then
    os.Exit 1
  -- push
  let pushErr ← run w "git" ["push", "origin", name]
  if pushErr ≠ none then
    os.Exit 1
  -- check out original head
  let checkoutOrigErr ← run w "git" ["checkout", "-q", headRev]
  if checkoutOrigErr ≠ none then
    os.Exit 1
  -- delete the branch that was created
  let deleteBranchErr ← run w "git" ["branch", "-D", name]
  if deleteBranchErr ≠ none then
    os.Exit 1

/-! ## Observing one invocation -/

/-- What one invocation of the program leaves behind. -/
structure Outcome where
  calls : List Call
  stdout : List String
  exitStatus : Nat
  deriving DecidableEq

/-- The program started in a fresh process: `main` returning ends the process
with status 0, `os.Exit` with the status given. -/
def execute (w : World) : Outcome :=
  match main w { calls := [], stdout := [] } with
  | Res.ret _ p => { calls := p.calls, stdout := p.stdout, exitStatus := 0 }
  | Res.exit code p => { calls := p.calls, stdout := p.stdout, exitStatus := code }

/-- A call issued through the function `run`. -/
def Call.isRun : Call → Bool
  | Call.run _ _ => true
  | Call.output _ _ => false

/-- The mutating invocations of an outcome: the calls issued through `run`. -/
def Outcome.mutating (o : Outcome) : List Call :=
  o.calls.filter Call.isRun

/-- The current-ref query. -/
def headQuery : Call :=
  Call.output "git" ["rev-parse", "--abbrev-ref", "HEAD"]

/-- The status query. -/
def statusQuery : Call :=
  Call.output "git" ["status", "-s"]

/-- The six-step list of the specification: create, checkout new, cherry-pick,
push, checkout original, delete. -/
def sixSteps (name rev ref : String) : List Call :=
  [ Call.run "git" ["branch", name, "origin/master", "--no-track"],
    Call.run "git" ["checkout", "-q", name],
    Call.run "git" ["cherry-pick", rev],
    Call.run "git" ["push", "origin", name],
    Call.run "git" ["checkout", "-q", ref],
    Call.run "git" ["branch", "-D", name] ]

/-- The answer of the world to a call, given the calls before it. -/
def World.answer (w : World) (before : List Call) : Call → Option ExecError
  | Call.output program args => (w.output before program args).2
  | Call.run program args => w.run before program args

/-- The lines `exit` prints for an error: the `Stderr` bytes of an
`*exec.ExitError`, nothing for any other error. -/
def exitLines : ExecError → List String
  | ExecError.exitError Stderr => [fmt.byteSlice Stderr]
  | ExecError.other => []

/-- Step `i` of a list of steps (counting from 0) succeeds when it is issued
after the two queries and the steps before it. -/
def stepSucceeds (w : World) (steps : List Call) (i : Nat) : Prop :=
  ∀ c, steps[i]? = some c → w.answer ([headQuery, statusQuery] ++ steps.take i) c = none

/-- Step `i` of a list of steps (counting from 0) fails when it is issued after
the two queries and the steps before it. -/
def stepFails (w : World) (steps : List Call) (i : Nat) : Prop :=
  ∃ c, steps[i]? = some c ∧ w.answer ([headQuery, statusQuery] ++ steps.take i) c ≠ none

/-- The value a computation returned, if it returned. -/
def Res.value? {α : Type} : Res α → Option α
  | Res.ret a _ => some a
  | Res.exit _ _ => none

/-- The number of newline-delimited pieces of a text whose length is greater
than zero (the count as the specification words it). -/
def nonEmptyLines (s : String) : Nat :=
  ((strings.Split s '\n').filter (fun line => 0 < line.length)).length

/-- The number of newline-delimited pieces of a text that are not empty after
leading and trailing white space is stripped. -/
def nonBlankLines (s : String) : Nat :=
  ((strings.Split s '\n').filter (fun line => strings.TrimSpace line ≠ "")).length

/-- The condition of the specification for exit status 0: at least two
arguments, both read-only queries succeed, no pending change, and each of the
six mutating steps succeeds. -/
def succeedsFully (w : World) : Prop :=
  3 ≤ w.args.length ∧
  (w.output [] "git" ["rev-parse", "--abbrev-ref", "HEAD"]).2 = none ∧
  (w.output [headQuery] "git" ["status", "-s"]).2 = none ∧
  changesCount (w.output [headQuery] "git" ["status", "-s"]).1 = 0 ∧
  ∀ i, i < 6 →
    stepSucceeds w
      (sixSteps (w.args.getD 1 "") (w.args.getD 2 "")
        (strings.TrimSpace (w.output [] "git" ["rev-parse", "--abbrev-ref", "HEAD"]).1)) i

/-- A world for examples: fixed arguments, fixed answers to the two queries,
and the mutating commands failing from the `failAt`-th one on (counting from 1;
0 for none failing). -/
def scripted (args : List String) (headOut : String × Option ExecError)
    (statusOut : String × Option ExecError) (failAt : Nat) : World where
  args := args
  output := fun _ _ a => if a = ["status", "-s"] then statusOut else headOut
  run := fun before _ _ =>
    if failAt ≠ 0 ∧ failAt ≤ (before.filter Call.isRun).length + 1 then some ExecError.other
    else none


/-! ## How computations unfold -/

theorem Go.bind_run {α β : Type} (m : Go α) (f : α → Go β) (p : Proc) :
    (m >>= f) p = match m p with
      | Res.ret a q => f a q
      | Res.exit code q => Res.exit code q := rfl

theorem Go.pure_run {α : Type} (a : α) (p : Proc) : (pure a : Go α) p = Res.ret a p := rfl

theorem Go.ite_run {α : Type} (c : Prop) [Decidable c] (m n : Go α) (p : Proc) :
    (if c then m else n) p = if c then m p else n p := by
  split <;> rfl

/-- What `exit` prints before it ends the process. -/
theorem exit_run {α : Type} (err : ExecError) (p : Proc) :
    (exit err : Go α) p = Res.exit 1 { p with stdout := p.stdout ++ exitLines err } := by
  cases err <;> simp [exit, exitLines, Go.bind_run, Go.pure_run, fmt.Println, os.Exit]

theorem args_of_length (l : List String) (h : 3 ≤ l.length) :
    ∃ prog name rev rest, l = prog :: name :: rev :: rest := by
  match l, h with
  | prog :: name :: rev :: rest, _ => exact ⟨prog, name, rev, rest, rfl⟩

theorem execute_usage (w : World) (h : w.args.length < 3) :
    execute w = ⟨[], ["Usage: git share [name] [rev]"], 1⟩ := by
  simp [execute, main, h, Go.bind_run, Go.pure_run, Go.ite_run, fmt.Println, os.Exit]

theorem execute_head_error (w : World) (h : 3 ≤ w.args.length) (raw : String) (e : ExecError)
    (hhead : w.output [] "git" ["rev-parse", "--abbrev-ref", "HEAD"] = (raw, some e)) :
    execute w = ⟨[headQuery], exitLines e, 1⟩ := by
  have h3 : ¬ w.args.length < 3 := by omega
  simp [execute, main, h3, Go.bind_run, Go.pure_run, Go.ite_run, head, exec.Output, hhead,
    exit_run, headQuery]

theorem execute_status_error (w : World) (h : 3 ≤ w.args.length) (raw s : String)
    (e : ExecError)
    (hhead : w.output [] "git" ["rev-parse", "--abbrev-ref", "HEAD"] = (raw, none))
    (hstatus : w.output [headQuery] "git" ["status", "-s"] = (s, some e)) :
    execute w = ⟨[headQuery, statusQuery], exitLines e, 1⟩ := by
  have h3 : ¬ w.args.length < 3 := by omega
  simp only [headQuery] at hstatus
  simp [execute, main, h3, Go.bind_run, Go.pure_run, Go.ite_run, head, exec.Output, hhead,
    hstatus, exit_run, headQuery, statusQuery, status, changes]

theorem execute_pending (w : World) (h : 3 ≤ w.args.length) (raw s : String)
    (hhead : w.output [] "git" ["rev-parse", "--abbrev-ref", "HEAD"] = (raw, none))
    (hstatus : w.output [headQuery] "git" ["status", "-s"] = (s, none))
    (hcount : 0 < changesCount s) :
    execute w = ⟨[headQuery, statusQuery], ["Cannot continue: pending changes"], 1⟩ := by
  have h3 : ¬ w.args.length < 3 := by omega
  simp only [headQuery] at hstatus
  simp [execute, main, h3, Go.bind_run, Go.pure_run, Go.ite_run, head, exec.Output, hhead,
    hstatus, hcount, headQuery, statusQuery, status, changes, fmt.Println, os.Exit]

theorem execute_success (w : World) (prog name rev : String) (rest : List String)
    (raw s : String)
    (hargs : w.args = prog :: name :: rev :: rest)
    (hhead : w.output [] "git" ["rev-parse", "--abbrev-ref", "HEAD"] = (raw, none))
    (hstatus : w.output [headQuery] "git" ["status", "-s"] = (s, none))
    (hcount : changesCount s = 0)
    (hsteps : ∀ i, i < 6 → stepSucceeds w (sixSteps name rev (strings.TrimSpace raw)) i) :
    execute w
      = ⟨[headQuery, statusQuery] ++ sixSteps name rev (strings.TrimSpace raw), [], 0⟩ := by
  have h0 := hsteps 0 (by omega)
  have h1 := hsteps 1 (by omega)
  have h2 := hsteps 2 (by omega)
  have h3 := hsteps 3 (by omega)
  have h4 := hsteps 4 (by omega)
  have h5 := hsteps 5 (by omega)
  simp [stepSucceeds, sixSteps, World.answer, headQuery, statusQuery] at h0 h1 h2 h3 h4 h5
  simp only [headQuery] at hstatus
  have hlen : ¬ rest.length + 1 + 1 + 1 < 3 := by omega
  simp [execute, main, hargs, hlen, Go.bind_run, Go.pure_run, Go.ite_run, os.Exit, head,
    exec.Output, hhead, hstatus, hcount, headQuery, statusQuery, status, changes, run,
    h0, h1, h2, h3, h4, h5, sixSteps]

theorem execute_fail_at (w : World) (prog name rev : String) (rest : List String)
    (raw s : String) (k : Nat)
    (hargs : w.args = prog :: name :: rev :: rest)
    (hhead : w.output [] "git" ["rev-parse", "--abbrev-ref", "HEAD"] = (raw, none))
    (hstatus : w.output [headQuery] "git" ["status", "-s"] = (s, none))
    (hcount : changesCount s = 0)
    (hk1 : 1 ≤ k) (hk6 : k ≤ 6)
    (hsteps : ∀ i, i < k - 1 → stepSucceeds w (sixSteps name rev (strings.TrimSpace raw)) i)
    (hfail : stepFails w (sixSteps name rev (strings.TrimSpace raw)) (k - 1)) :
    execute w
      = ⟨[headQuery, statusQuery] ++ (sixSteps name rev (strings.TrimSpace raw)).take k,
          [], 1⟩ := by
  have h0 := hsteps 0
  have h1 := hsteps 1
  have h2 := hsteps 2
  have h3 := hsteps 3
  have h4 := hsteps 4
  clear hsteps
  simp only [headQuery] at hstatus
  have hlen : ¬ rest.length + 1 + 1 + 1 < 3 := by omega
  interval_cases k <;>
  simp [stepSucceeds, stepFails, sixSteps, World.answer, headQuery, statusQuery]
    at h0 h1 h2 h3 h4 hfail <;>
  simp [execute, main, hargs, hlen, Go.bind_run, Go.pure_run, Go.ite_run, os.Exit, head,
    exec.Output, hhead, hstatus, hcount, headQuery, statusQuery, status, changes, run,
    sixSteps, *]

theorem steps_dichotomy (w : World) (steps : List Call) (n : Nat) :
    (∀ i, i < n → stepSucceeds w steps i) ∨
      ∃ k, 1 ≤ k ∧ k ≤ n ∧ (∀ i, i < k - 1 → stepSucceeds w steps i) ∧
        ¬ stepSucceeds w steps (k - 1) := by
  induction n with
  | zero => exact Or.inl (fun i hi => absurd hi (Nat.not_lt_zero i))
  | succ n ih =>
    rcases ih with hall | ⟨k, hk1, hkn, hbefore, hk⟩
    · by_cases hn : stepSucceeds w steps n
      · left
        intro i hi
        rcases Nat.lt_succ_iff_lt_or_eq.mp hi with h | h
        · exact hall i h
        · exact h ▸ hn
      · exact Or.inr ⟨n + 1, by omega, by omega, by simpa using hall, by simpa using hn⟩
    · exact Or.inr ⟨k, hk1, by omega, hbefore, hk⟩

theorem stepFails_of_not_stepSucceeds (w : World) (steps : List Call) (i : Nat)
    (h : ¬ stepSucceeds w steps i) : stepFails w steps i := by
  unfold stepSucceeds at h
  push_neg at h
  exact h

/-! ## Splitting and trimming -/

theorem strings.splitChars_ne_nil (sep : Char) (l : List Char) :
    strings.splitChars sep l ≠ [] := by
  induction l with
  | nil => simp [strings.splitChars]
  | cons c cs ih =>
    unfold strings.splitChars
    split
    · simp
    · split <;> simp

theorem strings.splitChars_append (sep : Char) (a b : List Char) :
    strings.splitChars sep (a ++ sep :: b)
      = strings.splitChars sep a ++ strings.splitChars sep b := by
  induction a with
  | nil => simp [strings.splitChars]
  | cons c cs ih =>
    by_cases hc : c = sep
    · simp [strings.splitChars, hc, ih]
    · have h1 := strings.splitChars_ne_nil sep cs
      cases hs : strings.splitChars sep cs with
      | nil => exact absurd hs h1
      | cons piece pieces =>
        simp [strings.splitChars, hc, ih, hs]

theorem strings.length_splitChars (sep : Char) (l : List Char) :
    (strings.splitChars sep l).length = l.count sep + 1 := by
  induction l with
  | nil => simp [strings.splitChars]
  | cons c cs ih =>
    by_cases hc : c = sep
    · simp [strings.splitChars, hc, ih]
    · have h1 := strings.splitChars_ne_nil sep cs
      cases hs : strings.splitChars sep cs with
      | nil => exact absurd hs h1
      | cons piece pieces =>
        rw [hs] at ih
        simp [strings.splitChars, hc, hs, List.count_cons]
        simpa using ih

theorem strings.mem_of_mem_splitChars (sep : Char) (l : List Char) :
    ∀ piece ∈ strings.splitChars sep l, ∀ c ∈ piece, c ∈ l := by
  induction l with
  | nil => simp [strings.splitChars]
  | cons d ds ih =>
    by_cases hd : d = sep
    · simp only [strings.splitChars, hd, if_true, List.mem_cons]
      rintro piece (h | h) c hc
      · subst h
        simp at hc
      · exact Or.inr (ih piece h c hc)
    · have h1 := strings.splitChars_ne_nil sep ds
      cases hs : strings.splitChars sep ds with
      | nil => exact absurd hs h1
      | cons piece pieces =>
        rw [hs] at ih
        simp only [strings.splitChars, hd, if_false, hs, List.mem_cons]
        rintro q (h | h) c hc
        · subst h
          rcases List.mem_cons.mp hc with hc | hc
          · exact Or.inl hc
          · exact Or.inr (ih piece (List.mem_cons_self _ _) c hc)
        · exact Or.inr (ih q (List.mem_cons_of_mem _ h) c hc)

theorem strings.exists_mem_splitChars (sep : Char) (l : List Char) :
    ∀ c ∈ l, c ≠ sep → ∃ piece ∈ strings.splitChars sep l, c ∈ piece := by
  induction l with
  | nil => simp
  | cons d ds ih =>
    intro c hc hne
    by_cases hd : d = sep
    · simp only [strings.splitChars, hd, if_true]
      rcases List.mem_cons.mp hc with hc | hc
      · exact absurd (hc.trans hd) hne
      · obtain ⟨piece, hp, hcp⟩ := ih c hc hne
        exact ⟨piece, List.mem_cons_of_mem _ hp, hcp⟩
    · have h1 := strings.splitChars_ne_nil sep ds
      cases hs : strings.splitChars sep ds with
      | nil => exact absurd hs h1
      | cons piece pieces =>
        rw [hs] at ih
        simp only [strings.splitChars, hd, if_false, hs]
        rcases List.mem_cons.mp hc with hc | hc
        · exact ⟨d :: piece, List.mem_cons_self _ _, by simp [hc]⟩
        · obtain ⟨q, hq, hcq⟩ := ih c hc hne
          rcases List.mem_cons.mp hq with hq | hq
          · subst hq
            exact ⟨d :: q, List.mem_cons_self _ _, List.mem_cons_of_mem _ hcq⟩
          · exact ⟨q, List.mem_cons_of_mem _ hq, hcq⟩

theorem strings.trimChars_eq_nil (l : List Char) :
    strings.trimChars l = [] ↔ ∀ c ∈ l, unicode.IsSpace c = true := by
  unfold strings.trimChars
  rw [List.reverse_eq_nil_iff]
  constructor
  · intro h
    rw [List.dropWhile_eq_nil_iff] at h
    by_contra hne
    have hd : l.dropWhile unicode.IsSpace ≠ [] := by
      rw [Ne, List.dropWhile_eq_nil_iff]
      exact hne
    have hhead := List.head_dropWhile_not unicode.IsSpace l hd
    have hmem : (l.dropWhile unicode.IsSpace).head hd
        ∈ (l.dropWhile unicode.IsSpace).reverse := by
      rw [List.mem_reverse]
      exact List.head_mem hd
    have := h _ hmem
    simp [hhead] at this
  · intro h
    have : l.dropWhile unicode.IsSpace = [] := by
      rw [List.dropWhile_eq_nil_iff]
      exact h
    simp [this]

theorem count_foldl (p : String → Bool) (xs : List String) (n : Nat) :
    xs.foldl (fun count line => if p line then count + 1 else count) n
      = n + (xs.filter p).length := by
  induction xs generalizing n with
  | nil => simp
  | cons x xs ih =>
    simp only [List.foldl_cons, List.filter_cons]
    rw [ih]
    split
    · simp
      omega
    · rfl

theorem TrimSpace_eq_empty (line : String) :
    strings.TrimSpace line = "" ↔ ∀ c ∈ line.data, unicode.IsSpace c = true := by
  have hempty : ("" : String) = String.mk [] := rfl
  rw [← strings.trimChars_eq_nil]
  simp [strings.TrimSpace, hempty, String.ext_iff]

theorem changesCount_eq_nonBlankLines (s : String) : changesCount s = nonBlankLines s := by
  unfold changesCount nonBlankLines
  rw [count_foldl (fun line => strings.TrimSpace line != "")]
  simp only [Nat.zero_add]
  congr 1
  apply List.filter_congr
  intro line _
  by_cases h : strings.TrimSpace line = "" <;> simp [h]

theorem changesCount_eq_zero_iff (s : String) :
    changesCount s = 0 ↔ ∀ line ∈ strings.Split s '\n', strings.TrimSpace line = "" := by
  rw [changesCount_eq_nonBlankLines]
  unfold nonBlankLines
  rw [List.length_eq_zero, List.filter_eq_nil_iff]
  simp

theorem changesCount_pos_iff (s : String) :
    0 < changesCount s ↔ ∃ line ∈ strings.Split s '\n', strings.TrimSpace line ≠ "" := by
  rw [Nat.pos_iff_ne_zero, Ne, changesCount_eq_zero_iff]
  push_neg
  rfl

theorem IsSpace_newline : unicode.IsSpace '\n' = true := by decide

theorem lines_blank_iff (s : String) :
    (∀ line ∈ strings.Split s '\n', strings.TrimSpace line = "") ↔
      ∀ c ∈ s.data, unicode.IsSpace c = true := by
  constructor
  · intro h c hc
    by_cases hn : c = '\n'
    · rw [hn]
      exact IsSpace_newline
    · obtain ⟨piece, hp, hcp⟩ := strings.exists_mem_splitChars '\n' s.data c hc hn
      have hmem : String.mk piece ∈ strings.Split s '\n' :=
        List.mem_map.mpr ⟨piece, hp, rfl⟩
      exact (TrimSpace_eq_empty _).mp (h _ hmem) c hcp
  · intro h line hline
    obtain ⟨piece, hp, rfl⟩ := List.mem_map.mp hline
    rw [TrimSpace_eq_empty]
    intro c hc
    exact h c (strings.mem_of_mem_splitChars '\n' s.data piece hp c hc)

theorem Split_append (a b : String) :
    strings.Split (a ++ "\n" ++ b) '\n' = strings.Split a '\n' ++ strings.Split b '\n' := by
  have hnl : ("\n" : String).data = ['\n'] := rfl
  simp [strings.Split, String.data_append, hnl, strings.splitChars_append]

theorem nonBlankLines_append (a b : String) :
    nonBlankLines (a ++ "\n" ++ b) = nonBlankLines a + nonBlankLines b := by
  simp [nonBlankLines, Split_append]

theorem nonBlankLines_empty : nonBlankLines "" = 0 := by decide

theorem nonBlankLines_le (s : String) : nonBlankLines s ≤ s.data.count '\n' + 1 := by
  unfold nonBlankLines
  calc ((strings.Split s '\n').filter (fun line => strings.TrimSpace line ≠ "")).length
      ≤ (strings.Split s '\n').length := List.length_filter_le _ _
    _ = s.data.count '\n' + 1 := by
      simp [strings.Split, strings.length_splitChars]

theorem changes_run (w : World) (p : Proc) (s : String)
    (h : w.output p.calls "git" ["status", "-s"] = (s, none)) :
    changes w p = Res.ret (changesCount s) ⟨p.calls ++ [statusQuery], p.stdout⟩ := by
  simp [changes, status, exec.Output, Go.bind_run, Go.pure_run, h, statusQuery]

/-! ## The workflow -/

/-- C1. Full success path: with at least two arguments (`name`, `rev`), the
current-ref query succeeding with output whose trimmed text is `ref`, the status
query succeeding with zero pending changes, and every one of the six mutating
commands succeeding, the invocations issued through `run` are exactly
`branch name origin/master --no-track`, `checkout -q name`, `cherry-pick rev`,
`push origin name`, `checkout -q ref`, `branch -D name`, in this order, and the
process ends with exit status 0. -/
theorem full_success_path (w : World) (prog name rev : String) (rest : List String)
    (raw ref s : String)
    (hargs : w.args = prog :: name :: rev :: rest)
    (hhead : w.output [] "git" ["rev-parse", "--abbrev-ref", "HEAD"] = (raw, none))
    (href : strings.TrimSpace raw = ref)
    (hstatus : w.output [headQuery] "git" ["status", "-s"] = (s, none))
    (hcount : changesCount s = 0)
    (hsteps : ∀ i, i < 6 → stepSucceeds w (sixSteps name rev ref) i) :
    (execute w).mutating =
        [ Call.run "git" ["branch", name, "origin/master", "--no-track"],
          Call.run "git" ["checkout", "-q", name],
          Call.run "git" ["cherry-pick", rev],
          Call.run "git" ["push", "origin", name],
          Call.run "git" ["checkout", "-q", ref],
          Call.run "git" ["branch", "-D", name] ] ∧
      (execute w).calls = [headQuery, statusQuery] ++ sixSteps name rev ref ∧
      (execute w).exitStatus = 0 := by
  subst href
  rw [execute_success w prog name rev rest raw s hargs hhead hstatus hcount hsteps]
  simp [Outcome.mutating, sixSteps, headQuery, statusQuery, Call.isRun]

/-- Witness of C1: ref `main`, name `feature-x`, rev `abc123`. -/
theorem full_success_path_witness :
    (execute (scripted ["git-pr", "feature-x", "abc123"] ("main\n", none) ("", none) 0)).mutating =
        [ Call.run "git" ["branch", "feature-x", "origin/master", "--no-track"],
          Call.run "git" ["checkout", "-q", "feature-x"],
          Call.run "git" ["cherry-pick", "abc123"],
          Call.run "git" ["push", "origin", "feature-x"],
          Call.run "git" ["checkout", "-q", "main"],
          Call.run "git" ["branch", "-D", "feature-x"] ] ∧
      (execute (scripted ["git-pr", "feature-x", "abc123"] ("main\n", none) ("", none) 0)).calls =
        [headQuery, statusQuery] ++ sixSteps "feature-x" "abc123" "main" ∧
      (execute (scripted ["git-pr", "feature-x", "abc123"] ("main\n", none) ("", none) 0)).exitStatus
        = 0 :=
  full_success_path (scripted ["git-pr", "feature-x", "abc123"] ("main\n", none) ("", none) 0)
    "git-pr" "feature-x" "abc123" [] "main\n" "main" "" rfl (by decide) (by decide) (by decide)
    (by decide)
    (by
      intro i hi c hc
      interval_cases i <;> simp [sixSteps] at hc <;> subst hc <;> decide)

/-- C2. Fail-fast with no rollback: for every k in 1..6, when the preconditions
pass and the mutating steps 1..k-1 succeed but step k fails, the invocations
issued through `run` are exactly steps 1..k of the six-step list, nothing is
invoked after step k (no later step, no compensating command), and the process
exits with status 1. -/
theorem fail_fast_no_rollback (w : World) (prog name rev : String) (rest : List String)
    (raw ref s : String) (k : Nat)
    (hargs : w.args = prog :: name :: rev :: rest)
    (hhead : w.output [] "git" ["rev-parse", "--abbrev-ref", "HEAD"] = (raw, none))
    (href : strings.TrimSpace raw = ref)
    (hstatus : w.output [headQuery] "git" ["status", "-s"] = (s, none))
    (hcount : changesCount s = 0)
    (hk1 : 1 ≤ k) (hk6 : k ≤ 6)
    (hsteps : ∀ i, i < k - 1 → stepSucceeds w (sixSteps name rev ref) i)
    (hfail : stepFails w (sixSteps name rev ref) (k - 1)) :
    (execute w).mutating = (sixSteps name rev ref).take k ∧
      (execute w).calls = [headQuery, statusQuery] ++ (sixSteps name rev ref).take k ∧
      (execute w).exitStatus = 1 := by
  subst href
  rw [execute_fail_at w prog name rev rest raw s k hargs hhead hstatus hcount hk1 hk6 hsteps
    hfail]
  refine ⟨?_, rfl, rfl⟩
  simp only [Outcome.mutating]
  interval_cases k <;> simp [sixSteps, headQuery, statusQuery, Call.isRun]

/-- Witness of C2: the cherry-pick (k = 3) fails; push, restore and cleanup are
never invoked. -/
theorem fail_fast_no_rollback_witness :
    (execute (scripted ["git-pr", "feature-x", "abc123"] ("main\n", none) ("", none) 3)).mutating =
        [ Call.run "git" ["branch", "feature-x", "origin/master", "--no-track"],
          Call.run "git" ["checkout", "-q", "feature-x"],
          Call.run "git" ["cherry-pick", "abc123"] ] ∧
      (execute (scripted ["git-pr", "feature-x", "abc123"] ("main\n", none) ("", none) 3)).calls =
        [headQuery, statusQuery] ++ (sixSteps "feature-x" "abc123" "main").take 3 ∧
      (execute (scripted ["git-pr", "feature-x", "abc123"] ("main\n", none) ("", none) 3)).exitStatus
        = 1 :=
  fail_fast_no_rollback (scripted ["git-pr", "feature-x", "abc123"] ("main\n", none) ("", none) 3)
    "git-pr" "feature-x" "abc123" [] "main\n" "main" "" 3 rfl (by decide) (by decide)
    (by decide) (by decide) (by decide) (by decide)
    (by
      intro i hi c hc
      have hi2 : i < 2 := hi
      interval_cases i <;> simp [sixSteps] at hc <;> subst hc <;> decide)
    ⟨Call.run "git" ["cherry-pick", "abc123"], by decide, by decide⟩

/-- C3, as amended. Clean gate: for every invocation with at least two arguments
and every status-query output that has at least one line that is not empty
after leading and trailing white space is stripped, the workflow issues no
mutating invocation and exits with status 1. -/
theorem clean_gate (w : World) (s : String)
    (hargs : 3 ≤ w.args.length)
    (hstatus : (w.output [headQuery] "git" ["status", "-s"]).1 = s)
    (hline : ∃ line ∈ strings.Split s '\n', strings.TrimSpace line ≠ "") :
    (execute w).mutating = [] ∧ (execute w).exitStatus = 1 := by
  have hpos : 0 < changesCount s := (changesCount_pos_iff s).mpr hline
  cases hh : w.output [] "git" ["rev-parse", "--abbrev-ref", "HEAD"] with
  | mk raw headErr =>
    cases headErr with
    | some e =>
      rw [execute_head_error w hargs raw e hh]
      simp [Outcome.mutating, headQuery, Call.isRun]
    | none =>
      cases hs : w.output [headQuery] "git" ["status", "-s"] with
      | mk out statusErr =>
        have hout : out = s := by
          rw [hs] at hstatus
          exact hstatus
        subst hout
        cases statusErr with
        | some e =>
          rw [execute_status_error w hargs raw out e hh hs]
          simp [Outcome.mutating, headQuery, statusQuery, Call.isRun]
        | none =>
          rw [execute_pending w hargs raw out hh hs hpos]
          simp [Outcome.mutating, headQuery, statusQuery, Call.isRun]

/-- Witness of the clean gate: one modified file in the status listing. -/
theorem clean_gate_witness :
    (execute (scripted ["git-pr", "feature-x", "abc123"] ("main\n", none)
        (" M main.go\n", none) 0)).mutating = [] ∧
      (execute (scripted ["git-pr", "feature-x", "abc123"] ("main\n", none)
        (" M main.go\n", none) 0)).exitStatus = 1 :=
  clean_gate (scripted ["git-pr", "feature-x", "abc123"] ("main\n", none) (" M main.go\n", none) 0)
    " M main.go\n" (by decide) (by decide) ⟨" M main.go", by decide, by decide⟩

/-- Counterexample to C3 as stated: the status output "\n" is a non-empty text,
yet it has no pending change; with every command succeeding the workflow issues
all six mutating invocations and exits with status 0. -/
theorem clean_gate_counterexample :
    ((scripted ["git-pr", "feature-x", "abc123"] ("main\n", none) ("\n", none) 0).output
        [headQuery] "git" ["status", "-s"]) = ("\n", none) ∧
      "\n" ≠ "" ∧
      (execute (scripted ["git-pr", "feature-x", "abc123"] ("main\n", none) ("\n", none) 0)).mutating
        = sixSteps "feature-x" "abc123" "main" ∧
      (execute (scripted ["git-pr", "feature-x", "abc123"] ("main\n", none) ("\n", none) 0)).exitStatus
        = 0 := by
  decide

/-- C4. Usage gate: with fewer than two arguments after the program name, the
workflow prints the one-line usage message, exits with status 1, and starts no
child process at all (neither query, no mutating command). -/
theorem usage_gate (w : World) (h : w.args.length < 3) :
    (execute w).stdout = ["Usage: git share [name] [rev]"] ∧
      (execute w).exitStatus = 1 ∧
      (execute w).calls = [] := by
  rw [execute_usage w h]
  exact ⟨rfl, rfl, rfl⟩

/-- Witness of the usage gate: one positional argument. -/
theorem usage_gate_witness :
    (execute (scripted ["git-pr", "feature-x"] ("main\n", none) ("", none) 0)).stdout
        = ["Usage: git share [name] [rev]"] ∧
      (execute (scripted ["git-pr", "feature-x"] ("main\n", none) ("", none) 0)).exitStatus = 1 ∧
      (execute (scripted ["git-pr", "feature-x"] ("main\n", none) ("", none) 0)).calls = [] :=
  usage_gate (scripted ["git-pr", "feature-x"] ("main\n", none) ("", none) 0) (by decide)

/-- C5. Exit-status characterisation: the process exits with status 0 if and
only if at least two arguments are supplied, both read-only queries succeed,
the pending-change count is 0 and all six mutating steps succeed; in every
other case it exits with status exactly 1. -/
theorem exit_status_characterisation (w : World) :
    ((execute w).exitStatus = 0 ↔ succeedsFully w) ∧
      ((execute w).exitStatus = 1 ↔ ¬ succeedsFully w) := by
  by_cases hlen : w.args.length < 3
  · have hno : ¬ succeedsFully w := fun h => absurd h.1 (by omega)
    rw [execute_usage w hlen]
    simp [hno]
  · have h3 : 3 ≤ w.args.length := by omega
    obtain ⟨prog, name, rev, rest, hargs⟩ := args_of_length w.args h3
    cases hh : w.output [] "git" ["rev-parse", "--abbrev-ref", "HEAD"] with
    | mk raw headErr =>
      cases headErr with
      | some e =>
        have hno : ¬ succeedsFully w := fun h => by
          have := h.2.1
          rw [hh] at this
          simp at this
        rw [execute_head_error w h3 raw e hh]
        simp [hno]
      | none =>
        cases hs : w.output [headQuery] "git" ["status", "-s"] with
        | mk s statusErr =>
          cases statusErr with
          | some e =>
            have hno : ¬ succeedsFully w := fun h => by
              have := h.2.2.1
              rw [hs] at this
              simp at this
            rw [execute_status_error w h3 raw s e hh hs]
            simp [hno]
          | none =>
            by_cases hc : changesCount s = 0
            · rcases steps_dichotomy w (sixSteps name rev (strings.TrimSpace raw)) 6 with
                hall | ⟨k, hk1, hk6, hbefore, hk⟩
              · have hyes : succeedsFully w := by
                  refine ⟨h3, ?_, ?_, ?_, ?_⟩
                  · rw [hh]
                  · rw [hs]
                  · rw [hs]
                    exact hc
                  · rw [hh, hargs]
                    exact hall
                rw [execute_success w prog name rev rest raw s hargs hh hs hc hall]
                simp [hyes]
              · have hno : ¬ succeedsFully w := fun h => by
                  have := h.2.2.2.2 (k - 1) (by omega)
                  rw [hh, hargs] at this
                  exact hk this
                rw [execute_fail_at w prog name rev rest raw s k hargs hh hs hc hk1 hk6 hbefore
                  (stepFails_of_not_stepSucceeds w _ _ hk)]
                simp [hno]
            · have hno : ¬ succeedsFully w := fun h => by
                have := h.2.2.2.1
                rw [hs] at this
                exact hc this
              rw [execute_pending w h3 raw s hh hs (Nat.pos_of_ne_zero hc)]
              simp [hno]

/-- C7. Query failure is terminal: when the current-ref query fails, the process
ends with status 1 having started nothing but that query (the status query is
never invoked, no mutating command is issued); when the status query fails, no
mutating command is issued and the process ends with status 1. -/
theorem query_failure_terminal (w : World) (hargs : 3 ≤ w.args.length) :
    (∀ raw e, w.output [] "git" ["rev-parse", "--abbrev-ref", "HEAD"] = (raw, some e) →
        (execute w).calls = [headQuery] ∧ statusQuery ∉ (execute w).calls ∧
          (execute w).mutating = [] ∧ (execute w).exitStatus = 1) ∧
      (∀ raw s e, w.output [] "git" ["rev-parse", "--abbrev-ref", "HEAD"] = (raw, none) →
        w.output [headQuery] "git" ["status", "-s"] = (s, some e) →
        (execute w).calls = [headQuery, statusQuery] ∧
          (execute w).mutating = [] ∧ (execute w).exitStatus = 1) := by
  constructor
  · intro raw e hhead
    rw [execute_head_error w hargs raw e hhead]
    simp [Outcome.mutating, headQuery, statusQuery, Call.isRun]
  · intro raw s e hhead hstatus
    rw [execute_status_error w hargs raw s e hhead hstatus]
    simp [Outcome.mutating, headQuery, statusQuery, Call.isRun]

/-- Witness of the terminal query failure: a world in which `git rev-parse`
exits non-zero, and a world in which `git status` cannot be started. -/
theorem query_failure_terminal_witness :
    ((execute (scripted ["git-pr", "feature-x", "abc123"]
          ("", some (ExecError.exitError [102, 97, 116, 97, 108])) ("", none) 0)).calls
        = [headQuery] ∧
      statusQuery ∉ (execute (scripted ["git-pr", "feature-x", "abc123"]
          ("", some (ExecError.exitError [102, 97, 116, 97, 108])) ("", none) 0)).calls ∧
      (execute (scripted ["git-pr", "feature-x", "abc123"]
          ("", some (ExecError.exitError [102, 97, 116, 97, 108])) ("", none) 0)).mutating = [] ∧
      (execute (scripted ["git-pr", "feature-x", "abc123"]
          ("", some (ExecError.exitError [102, 97, 116, 97, 108])) ("", none) 0)).exitStatus = 1) ∧
    ((execute (scripted ["git-pr", "feature-x", "abc123"] ("main\n", none)
          ("", some ExecError.other) 0)).calls = [headQuery, statusQuery] ∧
      (execute (scripted ["git-pr", "feature-x", "abc123"] ("main\n", none)
          ("", some ExecError.other) 0)).mutating = [] ∧
      (execute (scripted ["git-pr", "feature-x", "abc123"] ("main\n", none)
          ("", some ExecError.other) 0)).exitStatus = 1) :=
  ⟨(query_failure_terminal
      (scripted ["git-pr", "feature-x", "abc123"]
        ("", some (ExecError.exitError [102, 97, 116, 97, 108])) ("", none) 0)
      (by decide)).1 "" (ExecError.exitError [102, 97, 116, 97, 108]) (by decide),
   (query_failure_terminal
      (scripted ["git-pr", "feature-x", "abc123"] ("main\n", none) ("", some ExecError.other) 0)
      (by decide)).2 "main\n" "" ExecError.other (by decide) (by decide)⟩

/-! ## The pending-change count -/

/-- C6, as amended. Pending-change count: for every status-query output text
`s`, `changes` returns exactly the number of newline-delimited pieces of `s`
that are not empty after leading and trailing white space is stripped. -/
theorem changes_counts_non_blank_lines (w : World) (p : Proc) (s : String)
    (hstatus : w.output p.calls "git" ["status", "-s"] = (s, none)) :
    (changes w p).value? = some (nonBlankLines s) := by
  rw [changes_run w p s hstatus, changesCount_eq_nonBlankLines]
  rfl

/-- Witness of the amended count: a status listing of two entries. -/
theorem changes_counts_non_blank_lines_witness :
    (changes (scripted ["git-pr", "feature-x", "abc123"] ("main\n", none)
        (" M main.go\n?? notes.txt\n", none) 0) ⟨[headQuery], []⟩).value?
      = some (nonBlankLines " M main.go\n?? notes.txt\n") :=
  changes_counts_non_blank_lines
    (scripted ["git-pr", "feature-x", "abc123"] ("main\n", none)
      (" M main.go\n?? notes.txt\n", none) 0)
    ⟨[headQuery], []⟩ " M main.go\n?? notes.txt\n" (by decide)

/-- Counterexample to C6 as stated: on the status text " " (one blank) the
single newline-delimited piece has length 1, so one piece has length greater
than zero, but `changes` returns 0. -/
theorem changes_count_counterexample :
    (changes (scripted ["git-pr", "feature-x", "abc123"] ("main\n", none) (" ", none) 0)
        ⟨[headQuery], []⟩).value? = some 0 ∧
      nonEmptyLines " " = 1 := by
  decide

/-- C8. Idempotent precondition check: the pending-change count is a function
of the status-query output alone; two runs of `changes` (in any two worlds, at
any two process states) in which the status query returns the same text yield
the same count. -/
theorem changes_idempotent (w₁ w₂ : World) (p₁ p₂ : Proc) (s : String)
    (h₁ : w₁.output p₁.calls "git" ["status", "-s"] = (s, none))
    (h₂ : w₂.output p₂.calls "git" ["status", "-s"] = (s, none)) :
    (changes w₁ p₁).value? = some (changesCount s) ∧
      (changes w₂ p₂).value? = some (changesCount s) ∧
      (changes w₁ p₁).value? = (changes w₂ p₂).value? := by
  rw [changes_run w₁ p₁ s h₁, changes_run w₂ p₂ s h₂]
  exact ⟨rfl, rfl, rfl⟩

/-- Witness of the idempotent check: `changes` run twice in a row in one world,
and hence after different histories. -/
theorem changes_idempotent_witness :
    (changes (scripted ["git-pr", "feature-x", "abc123"] ("main\n", none)
        (" M main.go\n", none) 0) ⟨[headQuery], []⟩).value? = some (changesCount " M main.go\n") ∧
      (changes (scripted ["git-pr", "feature-x", "abc123"] ("main\n", none)
        (" M main.go\n", none) 0) ⟨[headQuery, statusQuery], []⟩).value?
        = some (changesCount " M main.go\n") ∧
      (changes (scripted ["git-pr", "feature-x", "abc123"] ("main\n", none)
        (" M main.go\n", none) 0) ⟨[headQuery], []⟩).value? =
      (changes (scripted ["git-pr", "feature-x", "abc123"] ("main\n", none)
        (" M main.go\n", none) 0) ⟨[headQuery, statusQuery], []⟩).value? :=
  changes_idempotent
    (scripted ["git-pr", "feature-x", "abc123"] ("main\n", none) (" M main.go\n", none) 0)
    (scripted ["git-pr", "feature-x", "abc123"] ("main\n", none) (" M main.go\n", none) 0)
    ⟨[headQuery], []⟩ ⟨[headQuery, statusQuery], []⟩ " M main.go\n" (by decide) (by decide)

/-- C9. When the gate lets the workflow through: with at least two arguments
and both queries succeeding, the status text being `s`, `changes` returns 0
exactly when every newline-delimited line of `s` is empty after white space is
stripped, which is exactly when `s` consists solely of white-space characters;
in that case the first mutating step is issued, and otherwise the count is at
least 1 and no mutating command is issued. -/
theorem gate_characterisation (w : World) (prog name rev : String) (rest : List String)
    (raw s : String)
    (hargs : w.args = prog :: name :: rev :: rest)
    (hhead : w.output [] "git" ["rev-parse", "--abbrev-ref", "HEAD"] = (raw, none))
    (hstatus : w.output [headQuery] "git" ["status", "-s"] = (s, none)) :
    (changes w ⟨[headQuery], []⟩).value? = some (changesCount s) ∧
      (changesCount s = 0 ↔
        ∀ line ∈ strings.Split s '\n', strings.TrimSpace line = "") ∧
      (changesCount s = 0 ↔ ∀ c ∈ s.data, unicode.IsSpace c = true) ∧
      (changesCount s = 0 ↔
        (execute w).mutating.head?
          = some (Call.run "git" ["branch", name, "origin/master", "--no-track"])) ∧
      (changesCount s ≠ 0 ↔ 1 ≤ changesCount s ∧ (execute w).mutating = []) := by
  have h3 : 3 ≤ w.args.length := by
    rw [hargs]
    simp
  refine ⟨?_, changesCount_eq_zero_iff s,
    (changesCount_eq_zero_iff s).trans (lines_blank_iff s), ?_, ?_⟩
  · rw [changes_run w ⟨[headQuery], []⟩ s hstatus]
    rfl
  · by_cases hc : changesCount s = 0
    · simp only [hc, true_iff]
      rcases steps_dichotomy w (sixSteps name rev (strings.TrimSpace raw)) 6 with
        hall | ⟨k, hk1, hk6, hbefore, hk⟩
      · rw [execute_success w prog name rev rest raw s hargs hhead hstatus hc hall]
        simp [Outcome.mutating, sixSteps, headQuery, statusQuery, Call.isRun]
      · rw [execute_fail_at w prog name rev rest raw s k hargs hhead hstatus hc hk1 hk6 hbefore
          (stepFails_of_not_stepSucceeds w _ _ hk)]
        simp only [Outcome.mutating]
        interval_cases k <;> simp [sixSteps, headQuery, statusQuery, Call.isRun]
    · rw [execute_pending w h3 raw s hhead hstatus (Nat.pos_of_ne_zero hc)]
      simp [hc, Outcome.mutating, headQuery, statusQuery, Call.isRun]
  · by_cases hc : changesCount s = 0
    · simp [hc]
    · rw [execute_pending w h3 raw s hhead hstatus (Nat.pos_of_ne_zero hc)]
      simp only [Outcome.mutating, headQuery, statusQuery, Call.isRun, List.filter, and_true,
        ne_eq, hc, not_false_eq_true, true_iff]
      omega

/-- Witness of the gate characterisation: a status text of white space only. -/
theorem gate_characterisation_witness :
    (changes (scripted ["git-pr", "feature-x", "abc123"] ("main\n", none) (" \n\t\n", none) 0)
        ⟨[headQuery], []⟩).value? = some (changesCount " \n\t\n") ∧
      (changesCount " \n\t\n" = 0 ↔
        ∀ line ∈ strings.Split " \n\t\n" '\n', strings.TrimSpace line = "") ∧
      (changesCount " \n\t\n" = 0 ↔ ∀ c ∈ " \n\t\n".data, unicode.IsSpace c = true) ∧
      (changesCount " \n\t\n" = 0 ↔
        (execute (scripted ["git-pr", "feature-x", "abc123"] ("main\n", none)
            (" \n\t\n", none) 0)).mutating.head?
          = some (Call.run "git" ["branch", "feature-x", "origin/master", "--no-track"])) ∧
      (changesCount " \n\t\n" ≠ 0 ↔
        1 ≤ changesCount " \n\t\n" ∧
          (execute (scripted ["git-pr", "feature-x", "abc123"] ("main\n", none)
            (" \n\t\n", none) 0)).mutating = []) :=
  gate_characterisation
    (scripted ["git-pr", "feature-x", "abc123"] ("main\n", none) (" \n\t\n", none) 0)
    "git-pr" "feature-x" "abc123" [] "main\n" " \n\t\n" rfl (by decide) (by decide)

/-- C10. The line counter is additive over newline-joined input: writing
count(s) for the value `changes` computes from the status text `s`,
count(a ++ "\n" ++ b) = count(a) + count(b); a trailing newline never changes
the count; count("") = 0; and count(s) is at most the number of newline
characters in `s` plus one. -/
theorem changes_count_additive (a b s : String) :
    changesCount (a ++ "\n" ++ b) = changesCount a + changesCount b ∧
      changesCount (s ++ "\n") = changesCount s ∧
      changesCount "" = 0 ∧
      changesCount s ≤ s.data.count '\n' + 1 := by
  refine ⟨?_, ?_, by decide, ?_⟩
  · simp only [changesCount_eq_nonBlankLines, nonBlankLines_append]
  · have h := nonBlankLines_append s ""
    rw [String.append_empty, nonBlankLines_empty, Nat.add_zero] at h
    simp only [changesCount_eq_nonBlankLines, h]
  · rw [changesCount_eq_nonBlankLines]
    exact nonBlankLines_le s

end GitPr
